import Mathlib

/-!
# Classpath hierarchy (models/classpath.go)

A shallow embedding of `models/classpath.go`: the record type, the tree builder
(`ListInsert`, `ClasspathNodeAllChildren`, `ToClasspathNode`), the direct-children scan
(`DirectChildren`) and the service operations (`Validate`, `Add`, `Del`, `AddResources`,
`ClasspathGets`, `ClasspathNodeGets`).

Conventions of the embedding.

* A Go `string` is the list of its bytes (`GoString`); comparison, `strings.HasPrefix`,
  `strings.Contains` and slicing are byte-wise, exactly as in Go.
* `int64` and `int` values are `Int`; no arithmetic is done on them in this file.
* A tree of `*ClasspathNode` is a value: every node is allocated afresh by `ToClasspathNode`
  and reachable through one parent only, so updating the cursor node in place is the same as
  rebuilding the path from the root to it.
* The store (xorm engine and session), the sibling model functions that are called but not
  defined in this file (`DBInsertOne`, `ClasspathResourceCount`, `CollectRuleCount`,
  `ClasspathResourceAdd`) and the library functions `str.Dangerous`, `strings.TrimSpace`,
  `time.Now` are parameters: their answers are given by a `Store` and a `Lib` value.
  Operations whose effect on the store matters return the list of store calls they issued.
* Logging is not modelled.
-/

/-! ## Strings -/

/-- A Go string: its sequence of bytes. -/
abbrev GoString := List Nat

/-- The bytes of an ASCII literal. -/
def ascii (s : String) : GoString := s.toList.map Char.toNat

/-- Go `strings.HasPrefix(s, pre)`. -/
def HasPrefix (s pre : GoString) : Bool := pre.isPrefixOf s

/-- Go `strings.Contains(s, substr)`: `substr` starts at some offset of `s`. -/
def Contains (s substr : GoString) : Bool := s.tails.any (fun t => substr.isPrefixOf t)

/-- Go `a < b` on strings: byte-wise lexicographic order. -/
def strLt : GoString → GoString → Bool
  | _, [] => false
  | [], _ :: _ => true
  | a :: as, b :: bs => decide (a < b) || (decide (a = b) && strLt as bs)

/-- The string `p` is a prefix of `s` and differs from it. -/
def properPrefix (p s : GoString) : Bool := HasPrefix s p && decide (p ≠ s)

/-- A run-time panic of the Go program. -/
inductive Panic where
  | sliceBounds
deriving DecidableEq

/-- Go `s[n:]`, which panics when `n > len(s)`. -/
def sliceFrom (s : GoString) (n : Nat) : Except Panic GoString :=
  if n ≤ s.length then .ok (s.drop n) else .error .sliceBounds

/-! ## Data model -/

/-- The struct `Classpath`. -/
structure Classpath where
  Id : Int
  Path : GoString
  Note : GoString
  Preset : Int
  CreateAt : Int
  CreateBy : GoString
  UpdateAt : Int
  UpdateBy : GoString
deriving DecidableEq

/-- The struct `ClasspathNode`; `Children` holds the nodes the Go slice points to. -/
inductive ClasspathNode where
  | mk (Id : Int) (Path : GoString) (Note : GoString) (Preset : Int)
      (Children : List ClasspathNode)

/-- Field `Path` of a node: the stored suffix. -/
def ClasspathNode.Path : ClasspathNode → GoString
  | .mk _ p _ _ _ => p

/-- Field `Children` of a node. -/
def ClasspathNode.Children : ClasspathNode → List ClasspathNode
  | .mk _ _ _ _ cs => cs

/-- A Go slice value, with `nil` kept apart from an allocated empty slice. -/
inductive Slice (α : Type) where
  | null
  | lit (xs : List α)
deriving DecidableEq

/-- Elements of a slice. -/
def Slice.toList {α : Type} : Slice α → List α
  | .null => []
  | .lit xs => xs

/-- Go `len(s)`. -/
def Slice.len {α : Type} (s : Slice α) : Nat := s.toList.length

/-- The slice obtained by appending the elements of `xs`, one after the other, to a `nil`
slice: still `nil` when there was nothing to append. -/
def Slice.appended {α : Type} : List α → Slice α
  | [] => .null
  | x :: xs => .lit (x :: xs)

/-! ## Hierarchy builder -/

/-- `ToClasspathNode`. -/
def ToClasspathNode (cp : Classpath) (path : GoString) : ClasspathNode :=
  .mk cp.Id path cp.Note cp.Preset []

mutual
/-- The loop of `ListInsert` after the cursor has moved to the node given as argument. -/
def ListInsert.descend (obj : Classpath) (path : GoString) : ClasspathNode → ClasspathNode
  | .mk id p note preset children => .mk id p note preset (ListInsert.loop obj path children)
/-- One iteration of the loop of `ListInsert` on the children of the cursor, with `path` the
remaining path: an empty child list ends the loop, otherwise the last child is compared; the
result is the cursor's child list after the insertion. The slice `path[len(prefix):]` is in
bounds because `HasPrefix` held. -/
def ListInsert.loop (obj : Classpath) (path : GoString) : List ClasspathNode → List ClasspathNode
  | [] => [ToClasspathNode obj path]
  | c :: rest =>
    match rest with
    | [] =>
      if HasPrefix path c.Path then [ListInsert.descend obj (path.drop c.Path.length) c]
      else [c, ToClasspathNode obj path]
    | _ :: _ => c :: ListInsert.loop obj path rest
end

/-- `ListInsert(obj, node)`: the node after the call. -/
def ListInsert (obj : Classpath) (node : ClasspathNode) : ClasspathNode :=
  ListInsert.descend obj obj.Path node

/-- `ClasspathNodeAllChildren`: the children of the zero-valued synthetic root after every
record has been inserted. -/
def ClasspathNodeAllChildren (cps : List Classpath) : List ClasspathNode :=
  (cps.foldl (fun node cp => ListInsert cp node) (.mk 0 [] [] 0 [])).Children

/-! ## Observing a forest -/

/-- What a node says about its record: id, full path, note, preset. -/
structure NodeInfo where
  Id : Int
  Path : GoString
  Note : GoString
  Preset : Int
deriving DecidableEq

/-- The part of a record that a node carries. -/
def Classpath.info (c : Classpath) : NodeInfo := ⟨c.Id, c.Path, c.Note, c.Preset⟩

/-- One node of a forest as seen by a traversal: its parent (`none` for a root), the node
itself with its full path, and the suffix stored on it. -/
structure Entry where
  parent : Option NodeInfo
  self : NodeInfo
  suffix : GoString
deriving DecidableEq

/-- Full path of the parent: empty above the roots. -/
def fullOf : Option NodeInfo → GoString
  | none => []
  | some p => p.Path

mutual
/-- Pre-order traversal of a node below `par`; the full path of a node is the full path of
its parent followed by its own suffix. -/
def walkNode (par : Option NodeInfo) : ClasspathNode → List Entry
  | .mk id p note preset children =>
    ⟨par, ⟨id, fullOf par ++ p, note, preset⟩, p⟩ ::
      walkForest (some ⟨id, fullOf par ++ p, note, preset⟩) children
/-- Pre-order traversal of the children of `par`. -/
def walkForest (par : Option NodeInfo) : List ClasspathNode → List Entry
  | [] => []
  | c :: rest => walkNode par c ++ walkForest par rest
end

/-- Flattening of a forest: the full path of every node, in pre-order. -/
def flatten (forest : List ClasspathNode) : List GoString :=
  (walkForest none forest).map (fun e => e.self.Path)

mutual
/-- The rightmost spine from a node downwards. -/
def spineNode (par : Option NodeInfo) : ClasspathNode → List NodeInfo
  | .mk id p note preset children =>
    ⟨id, fullOf par ++ p, note, preset⟩ ::
      spineForest (some ⟨id, fullOf par ++ p, note, preset⟩) children
/-- The rightmost spine of a forest: its last tree, the last child of that, and so on. -/
def spineForest (par : Option NodeInfo) : List ClasspathNode → List NodeInfo
  | [] => []
  | c :: rest =>
    match rest with
    | [] => spineNode par c
    | _ :: _ => spineForest par rest
end

/-- The spine nodes, from the top, whose full path is a prefix of `target`. -/
def keep (target : GoString) (spine : List NodeInfo) : List NodeInfo :=
  spine.takeWhile (fun n => HasPrefix target n.Path)

/-- The deepest spine node reached while the full paths are prefixes of `target`. -/
def pick (par : Option NodeInfo) (target : GoString) : List NodeInfo → Option NodeInfo
  | [] => par
  | n :: rest => if HasPrefix target n.Path then pick (some n) target rest else par

/-- The entry of the leaf that inserting `obj` adds below `par`, given the spine. -/
def newEntry (obj : Classpath) (par : Option NodeInfo) (target : GoString)
    (spine : List NodeInfo) : Entry :=
  ⟨pick par target spine, ⟨obj.Id, target, obj.Note, obj.Preset⟩,
    target.drop (fullOf (pick par target spine)).length⟩

/-- Strictly ascending by path. -/
def SortedByPath (cps : List Classpath) : Prop :=
  cps.Pairwise (fun a b => strLt a.Path b.Path = true)

instance (cps : List Classpath) : Decidable (SortedByPath cps) := by
  unfold SortedByPath; infer_instance

/-- Ascending by path, equal paths allowed. -/
def AscendingByPath (cps : List Classpath) : Prop :=
  cps.Pairwise (fun a b => strLt b.Path a.Path = false)

instance (cps : List Classpath) : Decidable (AscendingByPath cps) := by
  unfold AscendingByPath; infer_instance

/-- Records of `cps` whose path is a prefix of `target`, as node information. -/
def chainTo (target : GoString) (cps : List Classpath) : List NodeInfo :=
  (cps.filter (fun q => HasPrefix target q.Path)).map Classpath.info

/-- The spine expected after a sorted run: the records whose path is a prefix of the last. -/
def spineSpec (cps : List Classpath) : List NodeInfo :=
  match cps.getLast? with
  | none => []
  | some l => chainTo l.Path cps

/-- The entry expected for record `r`: parent is the last record of `cps` whose path is a
proper prefix of the path of `r`, the suffix is what follows the parent's path. -/
def specEntry (cps : List Classpath) (r : Classpath) : Entry :=
  ⟨((cps.filter (fun q => properPrefix q.Path r.Path)).getLast?).map Classpath.info, r.info,
    r.Path.drop (fullOf
      (((cps.filter (fun q => properPrefix q.Path r.Path)).getLast?).map Classpath.info)).length⟩

/-! ## Store and collaborators -/

/-- Error values: those built by the helper `_e` from a format and its arguments, the
package value `internalServerError`, and errors handed back by the store or a collaborator. -/
inductive Error where
  | e (format : String) (args : List GoString)
  | internalServerError
  | foreign (code : Nat)
deriving DecidableEq

/-- An argument bound to a `?` of a statement. -/
inductive Arg where
  | str (s : GoString)
  | int (n : Int)
deriving DecidableEq

/-- What the query builder has accumulated: `Limit`, `OrderBy`, `Where`. -/
structure Session where
  limit : Option (Int × Int)
  orderBy : Option String
  cond : Option (String × List Arg)
deriving DecidableEq

/-- Answers of the store and of the sibling model functions. -/
structure Store where
  Find : Session → List Classpath × Option Error
  Count : Session → Int × Option Error
  DBInsertOne : Classpath → Option Error
  ClasspathResourceCount : String → List Arg → Int × Option Error
  CollectRuleCount : String → List Arg → Int × Option Error
  Begin : Option Error
  Exec : String → List Arg → Option Error
  Commit : Option Error

/-- Library functions and the clock. -/
structure Lib where
  Dangerous : GoString → Bool
  TrimSpace : GoString → GoString
  now : Int

/-- A call issued to the store or to a sibling model function. -/
inductive Call where
  | count (s : Session)
  | insertOne (c : Classpath)
  | resourceCount (cond : String) (args : List Arg)
  | collectRuleCount (cond : String) (args : List Arg)
  | newSession
  | begin
  | exec (sql : String) (args : List Arg)
  | commit
  | close
deriving DecidableEq

/-! ## Classpath service -/

/-- `(*Classpath).Validate`. -/
def Classpath.Validate (lib : Lib) (c : Classpath) : Option Error :=
  if lib.Dangerous c.Path then some (.e "Classpath path has invalid characters" [])
  else if Contains c.Path (ascii " ") then some (.e "Classpath path has invalid characters" [])
  else if lib.Dangerous c.Note then some (.e "Classpath note has invalid characters" [])
  else none

/-- The session `DB.Where(where, args...)` counted by `ClasspathCount`. -/
def ClasspathCount.session (cond : String) (args : List Arg) : Session :=
  ⟨none, none, some (cond, args)⟩

/-- `ClasspathCount`. -/
def ClasspathCount (db : Store) (cond : String) (args : List Arg) : Int × Option Error :=
  match db.Count (ClasspathCount.session cond args) with
  | (num, some _) => (num, some .internalServerError)
  | (num, none) => (num, none)

/-- `(*Classpath).Add`: the error returned, the receiver after the call, the calls issued. -/
def Classpath.Add (lib : Lib) (db : Store) (c : Classpath) : Option Error × Classpath × List Call :=
  match Classpath.Validate lib c with
  | some err => (some err, c, [])
  | none =>
    match ClasspathCount db "path=?" [.str c.Path] with
    | (_, some err) => (some err, c, [.count (ClasspathCount.session "path=?" [.str c.Path])])
    | (num, none) =>
      if num > 0 then
        (some (.e "Classpath %s already exists" [c.Path]), c,
          [.count (ClasspathCount.session "path=?" [.str c.Path])])
      else
        (db.DBInsertOne
            ⟨c.Id, c.Path, c.Note, c.Preset, lib.now, c.CreateBy, lib.now, c.UpdateBy⟩,
          ⟨c.Id, c.Path, c.Note, c.Preset, lib.now, c.CreateBy, lib.now, c.UpdateBy⟩,
          [.count (ClasspathCount.session "path=?" [.str c.Path]),
            .insertOne ⟨c.Id, c.Path, c.Note, c.Preset, lib.now, c.CreateBy, lib.now, c.UpdateBy⟩])

/-- The session built by `ClasspathGets`. -/
def ClasspathGets.session (query : GoString) (limit offset : Int) : Session :=
  if query ≠ [] then
    ⟨some (limit, offset), some "path", some ("path like ?", [.str (ascii "%" ++ query ++ ascii "%")])⟩
  else ⟨some (limit, offset), some "path", none⟩

/-- `ClasspathGets`. -/
def ClasspathGets (db : Store) (query : GoString) (limit offset : Int) :
    Slice Classpath × Option Error :=
  match db.Find (ClasspathGets.session query limit offset) with
  | (rows, some _) => (Slice.appended rows, some .internalServerError)
  | (rows, none) =>
    if (Slice.appended rows).len = 0 then (.lit [], none) else (Slice.appended rows, none)

/-- The session built by `ClasspathGetsByPrefix`. -/
def ClasspathGetsByPrefix.session (pre : GoString) : Session :=
  ⟨none, some "path", some ("path like ?", [.str (pre ++ ascii "%")])⟩

/-- `ClasspathGetsByPrefix`. -/
def ClasspathGetsByPrefix (db : Store) (pre : GoString) : Slice Classpath × Option Error :=
  match db.Find (ClasspathGetsByPrefix.session pre) with
  | (rows, some _) => (Slice.appended rows, some .internalServerError)
  | (rows, none) =>
    if (Slice.appended rows).len = 0 then (.lit [], none) else (Slice.appended rows, none)

/-- `(*Classpath).Del`: the error returned and the calls issued, the deferred
`session.Close()` last. -/
def Classpath.Del (db : Store) (c : Classpath) : Option Error × List Call :=
  match db.ClasspathResourceCount "classpath_id=?" [.int c.Id] with
  | (_, some err) => (some err, [.resourceCount "classpath_id=?" [.int c.Id]])
  | (num, none) =>
    if num > 0 then
      (some (.e "There are still resources under the classpath" []),
        [.resourceCount "classpath_id=?" [.int c.Id]])
    else
      match db.CollectRuleCount "classpath_id=?" [.int c.Id] with
      | (_, some err) =>
        (some err, [.resourceCount "classpath_id=?" [.int c.Id],
          .collectRuleCount "classpath_id=?" [.int c.Id]])
      | (num, none) =>
        if num > 0 then
          (some (.e "There are still collect rules under the classpath" []),
            [.resourceCount "classpath_id=?" [.int c.Id],
              .collectRuleCount "classpath_id=?" [.int c.Id]])
        else
          match db.Begin with
          | some err =>
            (some err, [.resourceCount "classpath_id=?" [.int c.Id],
              .collectRuleCount "classpath_id=?" [.int c.Id], .newSession, .begin, .close])
          | none =>
            match db.Exec "DELETE FROM classpath_favorite WHERE classpath_id=?" [.int c.Id] with
            | some err =>
              (some err, [.resourceCount "classpath_id=?" [.int c.Id],
                .collectRuleCount "classpath_id=?" [.int c.Id], .newSession, .begin,
                .exec "DELETE FROM classpath_favorite WHERE classpath_id=?" [.int c.Id],
                .close])
            | none =>
              match db.Exec "DELETE FROM classpath WHERE id=?" [.int c.Id] with
              | some err =>
                (some err, [.resourceCount "classpath_id=?" [.int c.Id],
                  .collectRuleCount "classpath_id=?" [.int c.Id], .newSession, .begin,
                  .exec "DELETE FROM classpath_favorite WHERE classpath_id=?" [.int c.Id],
                  .exec "DELETE FROM classpath WHERE id=?" [.int c.Id], .close])
              | none =>
                (db.Commit, [.resourceCount "classpath_id=?" [.int c.Id],
                  .collectRuleCount "classpath_id=?" [.int c.Id], .newSession, .begin,
                  .exec "DELETE FROM classpath_favorite WHERE classpath_id=?" [.int c.Id],
                  .exec "DELETE FROM classpath WHERE id=?" [.int c.Id], .commit, .close])

/-- One call of `ClasspathResourceAdd` with the error it returned. -/
structure AttachCall where
  id : Int
  ident : GoString
  result : Option Error
deriving DecidableEq

/-- The loop of `AddResources` over the identifiers still to do; `attach` is the
collaborator `ClasspathResourceAdd`, which reads and updates a state of its own. -/
def Classpath.AddResources.loop {σ : Type} (attach : Int → GoString → σ → Option Error × σ) (lib : Lib)
    (id : Int) : List GoString → σ → Option Error × σ × List AttachCall
  | [], s => (none, s, [])
  | ident :: rest, s =>
    match attach id (lib.TrimSpace ident) s with
    | (some err, s1) => (some err, s1, [⟨id, lib.TrimSpace ident, some err⟩])
    | (none, s1) =>
      match Classpath.AddResources.loop attach lib id rest s1 with
      | (r, s2, calls) => (r, s2, ⟨id, lib.TrimSpace ident, none⟩ :: calls)

/-- `(*Classpath).AddResources`: the error returned, the collaborator's state afterwards, and
the collaborator calls made, in order. -/
def Classpath.AddResources {σ : Type} (attach : Int → GoString → σ → Option Error × σ) (lib : Lib)
    (c : Classpath) (idents : List GoString) (s : σ) : Option Error × σ × List AttachCall :=
  Classpath.AddResources.loop attach lib c.Id idents s

/-- The recorded calls are what the collaborator answers when run from state `s`, and leave
it in state `t`. -/
def Replays {σ : Type} (attach : Int → GoString → σ → Option Error × σ) :
    σ → List AttachCall → σ → Prop
  | s, [], t => s = t
  | s, x :: rest, t =>
    (attach x.id x.ident s).1 = x.result ∧ Replays attach (attach x.id x.ident s).2 rest t

/-- The session built by `ClasspathNodeGets`. -/
def ClasspathNodeGets.session (query : GoString) : Session :=
  if query ≠ [] then
    ⟨none, some "path", some ("path like ?", [.str (ascii "%" ++ query ++ ascii "%")])⟩
  else ⟨none, some "path", none⟩

/-- `ClasspathNodeGets`. -/
def ClasspathNodeGets (db : Store) (query : GoString) : Slice ClasspathNode × Option Error :=
  match db.Find (ClasspathNodeGets.session query) with
  | (_, some _) => (.lit [], some .internalServerError)
  | (rows, none) =>
    if (Slice.appended rows).len = 0 then (.lit [], none)
    else (Slice.appended (ClasspathNodeAllChildren (Slice.appended rows).toList), none)

/-- The `for` loop of `DirectChildren` over `objs[2:]`: `first` is `objs[0]`, `pre` and
`pcs` are the loop variables. -/
def Classpath.DirectChildren.loop (first : Classpath) :
    Classpath → List Classpath → List Classpath → Except Panic (List Classpath)
  | _, pcs, [] => .ok pcs
  | pre, pcs, cp :: rest =>
    if HasPrefix cp.Path pre.Path then Classpath.DirectChildren.loop first pre pcs rest
    else
      match sliceFrom cp.Path first.Path.length with
      | .error p => .error p
      | .ok path =>
        Classpath.DirectChildren.loop first cp
          (pcs ++ [⟨pre.Id, path, pre.Note, pre.Preset, pre.CreateAt, pre.CreateBy,
            pre.UpdateAt, pre.UpdateBy⟩]) rest

/-- `(*Classpath).DirectChildren`. -/
def Classpath.DirectChildren (db : Store) (cp : Classpath) :
    Except Panic (Slice Classpath × Option Error) :=
  match ClasspathGetsByPrefix db cp.Path with
  | (_, some _) => .ok (.lit [], some .internalServerError)
  | (objs, none) =>
    if objs.len < 2 then .ok (.lit [], none)
    else
      match objs.toList with
      | first :: second :: rest =>
        match sliceFrom second.Path first.Path.length with
        | .error p => .error p
        | .ok path =>
          match Classpath.DirectChildren.loop first
              ⟨second.Id, path, second.Note, second.Preset, second.CreateAt, second.CreateBy,
                second.UpdateAt, second.UpdateBy⟩
              [⟨second.Id, path, second.Note, second.Preset, second.CreateAt, second.CreateBy,
                second.UpdateAt, second.UpdateBy⟩] rest with
          | .error p => .error p
          | .ok pcs => .ok (.lit pcs, none)
      | _ => .ok (.lit [], none)

/-! ## Concrete records and stores -/

/-- A record with the given id and path, every other field zero. -/
def mkRecord (id : Int) (path : GoString) : Classpath := ⟨id, path, [], 0, 0, [], 0, []⟩

/-- The records `infra`, `infraweb`, `infraweb-api`, `infradb`. -/
def infraRecords : List Classpath :=
  [mkRecord 1 (ascii "infra"), mkRecord 2 (ascii "infraweb"), mkRecord 3 (ascii "infraweb-api"),
    mkRecord 4 (ascii "infradb")]

/-- The same four records in byte-wise ascending order of their paths. -/
def infraRecordsSorted : List Classpath :=
  [mkRecord 1 (ascii "infra"), mkRecord 4 (ascii "infradb"), mkRecord 2 (ascii "infraweb"),
    mkRecord 3 (ascii "infraweb-api")]

/-- The records `a`, `ab`, `abc`, `ax`. -/
def abRecords : List Classpath :=
  [mkRecord 1 (ascii "a"), mkRecord 2 (ascii "ab"), mkRecord 3 (ascii "abc"),
    mkRecord 4 (ascii "ax")]

/-- A library whose `Dangerous` rejects nothing and whose `TrimSpace` finds nothing to trim;
the clock reads `1700000000`. -/
def plainLib : Lib := ⟨fun _ => false, fun s => s, 1700000000⟩

/-- A store that answers every query with `rows`, every count with `n`, and never fails. -/
def fixedStore (rows : List Classpath) (n : Int) : Store :=
  ⟨fun _ => (rows, none), fun _ => (n, none), fun _ => none, fun _ _ => (n, none),
    fun _ _ => (n, none), none, fun _ _ => none, none⟩

/-- A collaborator that counts its calls and fails on the identifier `bad`. -/
def failingAttach (_ : Int) (ident : GoString) (calls : Nat) : Option Error × Nat :=
  if ident = ascii "bad" then (some (.foreign 7), calls + 1) else (none, calls + 1)

/-! ## Strings: lemmas -/

theorem HasPrefix_iff (s p : GoString) : HasPrefix s p = true ↔ p <+: s := by
  unfold HasPrefix; exact List.isPrefixOf_iff_prefix

theorem HasPrefix_append (a s p : GoString) :
    HasPrefix (a ++ s) (a ++ p) = HasPrefix s p := by
  rw [Bool.eq_iff_iff, HasPrefix_iff, HasPrefix_iff]
  exact List.prefix_append_right_inj a

theorem append_drop_of_HasPrefix (s p : GoString) (h : HasPrefix s p = true) :
    p ++ s.drop p.length = s := by
  rw [HasPrefix_iff] at h
  obtain ⟨t, rfl⟩ := h
  simp

theorem strLt_irrefl : ∀ a : GoString, strLt a a = false
  | [] => rfl
  | x :: xs => by simp [strLt, strLt_irrefl xs]

theorem strLt_of_properPrefix : ∀ (p s : GoString), p <+: s → p ≠ s → strLt p s = true
  | [], [], _, h => absurd rfl h
  | [], _ :: _, _, _ => rfl
  | x :: xs, [], h, _ => by simp at h
  | x :: xs, y :: ys, h, hne => by
    rw [List.cons_prefix_cons] at h
    obtain ⟨rfl, h⟩ := h
    have : xs ≠ ys := fun e => hne (by rw [e])
    simp [strLt, strLt_of_properPrefix xs ys h this]

theorem strLt_trans : ∀ (a b c : GoString), strLt a b = true → strLt b c = true →
    strLt a c = true
  | _, _, [], _, h => by simp [strLt] at h
  | _, [], _ :: _, h, _ => by simp [strLt] at h
  | [], _ :: _, _ :: _, _, _ => rfl
  | x :: xs, y :: ys, z :: zs, h1, h2 => by
    simp only [strLt, Bool.or_eq_true, Bool.and_eq_true, decide_eq_true_eq] at h1 h2 ⊢
    rcases h1 with h1 | ⟨rfl, h1⟩
    · rcases h2 with h2 | ⟨rfl, h2⟩
      · left; omega
      · left; exact h1
    · rcases h2 with h2 | ⟨rfl, h2⟩
      · left; exact h2
      · right; exact ⟨rfl, strLt_trans xs ys zs h1 h2⟩

theorem ne_of_strLt {a b : GoString} (h : strLt a b = true) : a ≠ b := by
  intro e; rw [e, strLt_irrefl] at h; exact absurd h (by simp)

/-- A prefix of `c` that sorts before `b`, where `b` sorts before `c`, is a prefix of `b`:
in a sorted run every ancestor of a record is an ancestor of the record before it, or is
that record. -/
theorem prefix_of_between : ∀ (a b c : GoString), strLt a b = true → strLt b c = true →
    a <+: c → a <+: b
  | [], _, _, _, _, _ => List.nil_prefix
  | _ :: _, [], _, h, _, _ => by simp [strLt] at h
  | _ :: _, _ :: _, [], _, h, _ => by simp [strLt] at h
  | x :: xs, y :: ys, z :: zs, h1, h2, h3 => by
    rw [List.cons_prefix_cons] at h3 ⊢
    obtain ⟨rfl, h3⟩ := h3
    simp only [strLt, Bool.or_eq_true, Bool.and_eq_true, decide_eq_true_eq] at h1 h2
    rcases h1 with h1 | ⟨rfl, h1⟩
    · rcases h2 with h2 | ⟨rfl, _⟩
      · omega
      · omega
    · rcases h2 with h2 | ⟨_, h2⟩
      · omega
      · exact ⟨rfl, prefix_of_between xs ys zs h1 h2 h3⟩

/-- Of two prefixes of one string, the one that sorts first is a prefix of the other. -/
theorem prefix_of_lt_of_both (a b c : GoString) (hab : strLt a b = true) (ha : a <+: c)
    (hb : b <+: c) : a <+: b := by
  rcases Nat.le_total a.length b.length with h | h
  · exact List.prefix_of_prefix_length_le ha hb h
  · have hba := List.prefix_of_prefix_length_le hb ha h
    by_cases e : b = a
    · rw [e]
    · have h1 := strLt_trans a b a hab (strLt_of_properPrefix b a hba e)
      rw [strLt_irrefl] at h1
      exact absurd h1 (by simp)

theorem properPrefix_false_of_strLt {a b : GoString} (h : strLt a b = true) :
    properPrefix b a = false := by
  by_contra hc
  simp only [properPrefix, Bool.not_eq_false, Bool.and_eq_true, decide_eq_true_eq,
    HasPrefix_iff] at hc
  have h1 := strLt_trans a b a h (strLt_of_properPrefix b a hc.1 hc.2)
  rw [strLt_irrefl] at h1
  exact absurd h1 (by simp)

theorem properPrefix_eq_of_strLt {a b : GoString} (h : strLt a b = true) :
    properPrefix a b = HasPrefix b a := by
  simp [properPrefix, ne_of_strLt h]

theorem properPrefix_self (a : GoString) : properPrefix a a = false := by
  simp [properPrefix]

theorem Contains_singleton (b : Nat) : ∀ s : GoString, Contains s [b] = true ↔ b ∈ s
  | [] => by simp [Contains, List.isPrefixOf]
  | x :: xs => by
    have ih := Contains_singleton b xs
    simp only [Contains, List.tails, List.any_cons, Bool.or_eq_true, List.mem_cons] at ih ⊢
    rw [ih]
    simp [List.isPrefixOf]

/-! ## Builder: one insertion -/

mutual
theorem walkNode_descend (obj : Classpath) :
    ∀ (c : ClasspathNode) (par : Option NodeInfo) (path : GoString),
      walkNode par (ListInsert.descend obj path c) =
        walkNode par c ++
          [newEntry obj (spineNode par c).head? (fullOf par ++ c.Path ++ path)
            (spineNode par c).tail]
  | .mk id p note preset children, par, path => by
    simp only [ListInsert.descend, walkNode, spineNode, List.head?_cons, List.tail_cons,
      ClasspathNode.Path, List.cons_append, List.cons.injEq, true_and]
    have := walkForest_loop obj children (some ⟨id, fullOf par ++ p, note, preset⟩) path
    simpa [fullOf] using this
theorem walkForest_loop (obj : Classpath) :
    ∀ (cs : List ClasspathNode) (par : Option NodeInfo) (path : GoString),
      walkForest par (ListInsert.loop obj path cs) =
        walkForest par cs ++ [newEntry obj par (fullOf par ++ path) (spineForest par cs)]
  | [], par, path => by
    simp [ListInsert.loop, walkForest, walkNode, ToClasspathNode, newEntry, spineForest, pick]
  | [.mk id p note preset children], par, path => by
    have hd := walkNode_descend obj (.mk id p note preset children) par (path.drop p.length)
    by_cases h : HasPrefix path p = true
    · have hp : HasPrefix (fullOf par ++ path) (fullOf par ++ p) = true := by
        rw [HasPrefix_append]; exact h
      simp only [ListInsert.loop, ClasspathNode.Path, h, if_true, walkForest, hd,
        List.append_nil, spineForest, spineNode, List.head?_cons, List.tail_cons, newEntry, pick,
        hp, List.append_assoc, append_drop_of_HasPrefix path p h]
    · have hp : ¬ HasPrefix (fullOf par ++ path) (fullOf par ++ p) = true := by
        rw [HasPrefix_append]; exact h
      simp [ListInsert.loop, ClasspathNode.Path, h, walkForest, walkNode, ToClasspathNode,
        spineForest, spineNode, newEntry, pick, hp]
  | c :: c' :: rest, par, path => by
    have := walkForest_loop obj (c' :: rest) par path
    simp only [ListInsert.loop, walkForest, spineForest] at this ⊢
    rw [this]; simp
end

theorem loop_ne_nil (obj : Classpath) (path : GoString) :
    ∀ cs : List ClasspathNode, ListInsert.loop obj path cs ≠ []
  | [] => by simp [ListInsert.loop]
  | [c] => by
    simp only [ListInsert.loop]
    split <;> simp
  | c :: c' :: rest => by simp [ListInsert.loop]

theorem loop_cons_cons (obj : Classpath) (path : GoString) (c c' : ClasspathNode)
    (rest : List ClasspathNode) :
    ListInsert.loop obj path (c :: c' :: rest) = c :: ListInsert.loop obj path (c' :: rest) := by
  simp [ListInsert.loop]

theorem spineForest_cons_of_ne_nil (par : Option NodeInfo) (c : ClasspathNode) :
    ∀ l : List ClasspathNode, l ≠ [] → spineForest par (c :: l) = spineForest par l
  | [], h => absurd rfl h
  | _ :: _, _ => by simp [spineForest]

mutual
theorem spineNode_descend (obj : Classpath) :
    ∀ (c : ClasspathNode) (par : Option NodeInfo) (path : GoString),
      spineNode par (ListInsert.descend obj path c) =
        (spineNode par c).head?.toList ++ keep (fullOf par ++ c.Path ++ path) (spineNode par c).tail ++
          [⟨obj.Id, fullOf par ++ c.Path ++ path, obj.Note, obj.Preset⟩]
  | .mk id p note preset children, par, path => by
    have := spineForest_loop obj children (some ⟨id, fullOf par ++ p, note, preset⟩) path
    simpa [ListInsert.descend, spineNode, ClasspathNode.Path, fullOf] using this
theorem spineForest_loop (obj : Classpath) :
    ∀ (cs : List ClasspathNode) (par : Option NodeInfo) (path : GoString),
      spineForest par (ListInsert.loop obj path cs) =
        keep (fullOf par ++ path) (spineForest par cs) ++
          [⟨obj.Id, fullOf par ++ path, obj.Note, obj.Preset⟩]
  | [], par, path => by
    simp [ListInsert.loop, spineForest, spineNode, ToClasspathNode, keep]
  | [.mk id p note preset children], par, path => by
    have hd := spineNode_descend obj (.mk id p note preset children) par (path.drop p.length)
    by_cases h : HasPrefix path p = true
    · have hp : HasPrefix (fullOf par ++ path) (fullOf par ++ p) = true := by
        rw [HasPrefix_append]; exact h
      simp only [ListInsert.loop, ClasspathNode.Path, h, if_true, spineForest]
      rw [hd]
      simp only [keep, ClasspathNode.Path,
        spineNode, List.head?_cons, List.tail_cons, List.takeWhile_cons, Option.toList,
        hp, List.append_assoc, append_drop_of_HasPrefix path p h, List.cons_append,
        List.nil_append, List.singleton_append, if_true]
    · have hp : ¬ HasPrefix (fullOf par ++ path) (fullOf par ++ p) = true := by
        rw [HasPrefix_append]; exact h
      simp [ListInsert.loop, ClasspathNode.Path, h, spineForest, spineNode, ToClasspathNode,
        keep, hp, List.takeWhile_cons]
  | c :: c' :: rest, par, path => by
    rw [loop_cons_cons, spineForest_cons_of_ne_nil _ _ _ (loop_ne_nil obj path _),
      spineForest_cons_of_ne_nil _ _ _ (List.cons_ne_nil c' rest),
      spineForest_loop obj (c' :: rest) par path]
end


/-! ## Builder: a run of insertions -/

theorem ListInsert_Children (obj : Classpath) (node : ClasspathNode) :
    (ListInsert obj node).Children = ListInsert.loop obj obj.Path node.Children := by
  cases node; rfl

theorem build_snoc (cps : List Classpath) (x : Classpath) :
    ClasspathNodeAllChildren (cps ++ [x]) =
      ListInsert.loop x x.Path (ClasspathNodeAllChildren cps) := by
  unfold ClasspathNodeAllChildren
  rw [List.foldl_append, List.foldl_cons, List.foldl_nil, ListInsert_Children]

theorem walk_build_snoc (cps : List Classpath) (x : Classpath) :
    walkForest none (ClasspathNodeAllChildren (cps ++ [x])) =
      walkForest none (ClasspathNodeAllChildren cps) ++
        [newEntry x none x.Path (spineForest none (ClasspathNodeAllChildren cps))] := by
  rw [build_snoc, walkForest_loop]; rfl

theorem spine_build_snoc (cps : List Classpath) (x : Classpath) :
    spineForest none (ClasspathNodeAllChildren (cps ++ [x])) =
      keep x.Path (spineForest none (ClasspathNodeAllChildren cps)) ++ [x.info] := by
  rw [build_snoc, spineForest_loop]; rfl

theorem walk_build_self (cps : List Classpath) :
    (walkForest none (ClasspathNodeAllChildren cps)).map (fun e => e.self) =
      cps.map Classpath.info := by
  induction cps using List.reverseRecOn with
  | nil => rfl
  | append_singleton cps x ih =>
    rw [walk_build_snoc, List.map_append, ih, List.map_append]
    rfl

theorem takeWhile_eq_filter {α : Type} (p : α → Bool) :
    ∀ l : List α, l.Pairwise (fun a b => p b = true → p a = true) →
      l.takeWhile p = l.filter p
  | [], _ => rfl
  | a :: l, h => by
    rw [List.pairwise_cons] at h
    by_cases ha : p a = true
    · simp [List.takeWhile_cons, List.filter_cons, ha, takeWhile_eq_filter p l h.2]
    · have : l.filter p = [] := by
        rw [List.filter_eq_nil_iff]
        intro b hb hpb
        exact ha (h.1 b hb hpb)
      simp [List.takeWhile_cons, List.filter_cons, ha, this]

theorem pick_eq (target : GoString) : ∀ (spine : List NodeInfo) (par : Option NodeInfo),
    pick par target spine = ((keep target spine).getLast?).or par
  | [], par => by simp [pick, keep]
  | n :: rest, par => by
    by_cases h : HasPrefix target n.Path = true
    · have ih := pick_eq target rest (some n)
      simp only [pick, h, if_true, keep, List.takeWhile_cons] at ih ⊢
      rw [ih, List.getLast?_cons]
      cases (List.takeWhile (fun n => HasPrefix target n.Path) rest).getLast? <;> simp
    · simp [pick, h, keep, List.takeWhile_cons]

theorem sorted_snoc {cps : List Classpath} {x : Classpath} (h : SortedByPath (cps ++ [x])) :
    SortedByPath cps ∧ ∀ q ∈ cps, strLt q.Path x.Path = true := by
  unfold SortedByPath at h ⊢
  rw [List.pairwise_append] at h
  exact ⟨h.1, fun q hq => h.2.2 q hq x (by simp)⟩

theorem keep_chainTo (cps : List Classpath) (l x : Classpath)
    (hs : SortedByPath (cps ++ [l])) (hlx : strLt l.Path x.Path = true) :
    keep x.Path (chainTo l.Path (cps ++ [l])) = chainTo x.Path (cps ++ [l]) := by
  unfold keep chainTo
  rw [List.takeWhile_map]
  have hpw : ((cps ++ [l]).filter (fun q => HasPrefix l.Path q.Path)).Pairwise
      (fun a b => ((fun n : NodeInfo => HasPrefix x.Path n.Path) ∘ Classpath.info) b = true →
        ((fun n : NodeInfo => HasPrefix x.Path n.Path) ∘ Classpath.info) a = true) := by
    have hsub : ((cps ++ [l]).filter (fun q => HasPrefix l.Path q.Path)).Pairwise
        (fun a b => strLt a.Path b.Path = true) := List.Pairwise.sublist (List.filter_sublist _) hs
    refine (List.Pairwise.and_mem.1 hsub).imp ?_
    intro a b ⟨ha, hb, hab⟩ hbx
    simp only [Function.comp, Classpath.info, HasPrefix_iff] at hbx ⊢
    have ha' := (HasPrefix_iff _ _).1 (List.mem_filter.1 ha).2
    have hb' := (HasPrefix_iff _ _).1 (List.mem_filter.1 hb).2
    exact (prefix_of_lt_of_both _ _ _ hab ha' hb').trans hbx
  rw [takeWhile_eq_filter _ _ hpw, List.filter_filter]
  congr 1
  apply List.filter_congr
  intro q hq
  simp only [Function.comp, Classpath.info]
  cases hqx : HasPrefix x.Path q.Path with
  | false => rfl
  | true =>
    rw [Bool.true_and, HasPrefix_iff]
    rw [HasPrefix_iff] at hqx
    rcases List.mem_append.1 hq with hq | hq
    · exact prefix_of_between _ _ _ ((sorted_snoc hs).2 q hq) hlx hqx
    · simp at hq; rw [hq]

theorem filter_properPrefix_snoc (cps : List Classpath) (x : Classpath)
    (hs : SortedByPath (cps ++ [x])) :
    (cps ++ [x]).filter (fun q => properPrefix q.Path x.Path) =
      cps.filter (fun q => HasPrefix x.Path q.Path) := by
  rw [List.filter_append]
  simp only [List.filter_cons, properPrefix_self, List.filter_nil, List.append_nil]
  simp
  apply List.filter_congr
  intro q hq
  exact properPrefix_eq_of_strLt ((sorted_snoc hs).2 q hq)

theorem specEntry_snoc_old (cps : List Classpath) (x r : Classpath)
    (hs : SortedByPath (cps ++ [x])) (hr : r ∈ cps) :
    specEntry (cps ++ [x]) r = specEntry cps r := by
  have : (cps ++ [x]).filter (fun q => properPrefix q.Path r.Path) =
      cps.filter (fun q => properPrefix q.Path r.Path) := by
    rw [List.filter_append]
    simp [List.filter_cons, properPrefix_false_of_strLt ((sorted_snoc hs).2 r hr)]
  simp only [specEntry, this]

theorem keep_spineSpec (cps : List Classpath) (x : Classpath)
    (hs : SortedByPath (cps ++ [x])) :
    keep x.Path (spineSpec cps) = chainTo x.Path cps := by
  rcases List.eq_nil_or_concat cps with rfl | ⟨cps', l, rfl⟩
  · rfl
  · rw [List.concat_eq_append] at hs ⊢
    have hl : spineSpec (cps' ++ [l]) = chainTo l.Path (cps' ++ [l]) := by
      simp [spineSpec]
    rw [hl]
    exact keep_chainTo cps' l x (sorted_snoc hs).1 ((sorted_snoc hs).2 l (by simp))

theorem build_sorted (cps : List Classpath) (hs : SortedByPath cps) :
    walkForest none (ClasspathNodeAllChildren cps) = cps.map (specEntry cps) ∧
      spineForest none (ClasspathNodeAllChildren cps) = spineSpec cps := by
  induction cps using List.reverseRecOn with
  | nil => exact ⟨rfl, rfl⟩
  | append_singleton cps x ih =>
    obtain ⟨ihw, ihs⟩ := ih (sorted_snoc hs).1
    have hkeep := keep_spineSpec cps x hs
    constructor
    · rw [walk_build_snoc, ihw, ihs, List.map_append]
      congr 1
      · apply List.map_congr_left
        intro r hr
        exact (specEntry_snoc_old cps x r hs hr).symm
      · simp only [List.map_cons, List.map_nil, List.cons.injEq, and_true]
        have hp : pick none x.Path (spineSpec cps) =
            ((cps.filter (fun q => HasPrefix x.Path q.Path)).getLast?).map Classpath.info := by
          rw [pick_eq, hkeep, chainTo, List.getLast?_map]
          simp
        simp only [newEntry, specEntry, filter_properPrefix_snoc cps x hs, hp]
        rfl
    · rw [spine_build_snoc, ihs, hkeep]
      simp [spineSpec, chainTo, List.filter_append, List.filter_cons, HasPrefix, Classpath.info]

theorem filter_path_eq : ∀ (cps : List Classpath), SortedByPath cps → ∀ r ∈ cps,
    cps.filter (fun q => decide (q.Path = r.Path)) = [r]
  | [], _, _, hr => by simp at hr
  | a :: l, hs, r, hr => by
    unfold SortedByPath at hs
    rw [List.pairwise_cons] at hs
    rcases List.mem_cons.1 hr with rfl | hr
    · have hl : l.filter (fun q => decide (q.Path = r.Path)) = [] := by
        rw [List.filter_eq_nil_iff]
        intro b hb hbe
        exact ne_of_strLt (hs.1 b hb) (of_decide_eq_true hbe).symm
      simp [List.filter_cons, hl]
    · have ha : ¬ a.Path = r.Path := ne_of_strLt (hs.1 r hr)
      simp only [List.filter_cons, ha, decide_False, Bool.false_eq_true, if_false]
      exact filter_path_eq l hs.2 r hr

theorem longest_of_getLast (cps : List Classpath) (hs : SortedByPath cps) (r p : Classpath)
    (hp : (cps.filter (fun q => properPrefix q.Path r.Path)).getLast? = some p) :
    ∀ q ∈ cps, properPrefix q.Path r.Path = true → q.Path.length ≤ p.Path.length := by
  intro q hq hqr
  obtain ⟨ys, hys⟩ := List.getLast?_eq_some_iff.1 hp
  have hsub : SortedByPath (ys ++ [p]) := by
    unfold SortedByPath at hs ⊢
    rw [← hys]
    exact List.Pairwise.sublist (List.filter_sublist _) hs
  have hqm : q ∈ ys ++ [p] := by
    rw [← hys]; exact List.mem_filter.2 ⟨hq, hqr⟩
  have hpm : p ∈ cps.filter (fun q => properPrefix q.Path r.Path) := by
    rw [hys]; simp
  rcases List.mem_append.1 hqm with hq' | hq'
  · have hlt := (sorted_snoc hsub).2 q hq'
    have hqr' : q.Path <+: r.Path := by
      simp only [properPrefix, Bool.and_eq_true, HasPrefix_iff] at hqr
      exact hqr.1
    have hpr : p.Path <+: r.Path := by
      have := (List.mem_filter.1 hpm).2
      simp only [properPrefix, Bool.and_eq_true, HasPrefix_iff] at this
      exact this.1
    exact (prefix_of_lt_of_both _ _ _ hlt hqr' hpr).length_le
  · simp at hq'; rw [hq']

/-! ## Claims about the hierarchy builder -/

/-- Claim C1. For records sorted strictly ascending by path, the tree built by
`ClasspathNodeAllChildren` has exactly one node whose full path is the path of a given record
`r`; that node carries the id, note and preset of `r`. If some record's path is a proper prefix
of the path of `r`, the node's parent is the node of the record `p` with the longest such
path and the stored suffix is the path of `r` without that prefix; if no record's path is a
proper prefix, the node is a root and stores the whole path. -/
theorem ClasspathNodeAllChildren_nearest_ancestor (cps : List Classpath)
    (hsorted : SortedByPath cps) (r : Classpath) (hr : r ∈ cps) :
    ∃ e : Entry,
      (walkForest none (ClasspathNodeAllChildren cps)).filter
          (fun x => decide (x.self.Path = r.Path)) = [e] ∧
      e.self = r.info ∧
      ((∃ q ∈ cps, properPrefix q.Path r.Path = true) →
        ∃ p ∈ cps, properPrefix p.Path r.Path = true ∧
          (∀ q ∈ cps, properPrefix q.Path r.Path = true → q.Path.length ≤ p.Path.length) ∧
          e.parent = some p.info ∧ e.suffix = r.Path.drop p.Path.length) ∧
      ((∀ q ∈ cps, properPrefix q.Path r.Path = false) →
        e.parent = none ∧ e.suffix = r.Path) := by
  refine ⟨specEntry cps r, ?_, rfl, ?_, ?_⟩
  · rw [(build_sorted cps hsorted).1, List.filter_map]
    have : ((fun x : Entry => decide (x.self.Path = r.Path)) ∘ specEntry cps) =
        fun q => decide (q.Path = r.Path) := by
      funext q; rfl
    rw [this, filter_path_eq cps hsorted r hr]
    rfl
  · rintro ⟨q, hq, hqr⟩
    cases hl : (cps.filter (fun q => properPrefix q.Path r.Path)).getLast? with
    | none =>
      rw [List.getLast?_eq_none_iff, List.filter_eq_nil_iff] at hl
      exact absurd hqr (hl q hq)
    | some p =>
      have hpm := List.mem_filter.1 (List.mem_of_getLast?_eq_some hl)
      refine ⟨p, hpm.1, hpm.2, longest_of_getLast cps hsorted r p hl, ?_, ?_⟩
      · simp [specEntry, hl]
      · simp [specEntry, hl, fullOf, Classpath.info]
  · intro hnone
    have hl : cps.filter (fun q => properPrefix q.Path r.Path) = [] := by
      rw [List.filter_eq_nil_iff]
      intro q hq
      rw [hnone q hq]
      simp
    simp [specEntry, hl, fullOf]

theorem ClasspathNodeAllChildren_nearest_ancestor_witness :
    SortedByPath abRecords ∧ mkRecord 3 (ascii "abc") ∈ abRecords ∧
      ∃ e : Entry,
        (walkForest none (ClasspathNodeAllChildren abRecords)).filter
            (fun x => decide (x.self.Path = (mkRecord 3 (ascii "abc")).Path)) = [e] ∧
        e.self = (mkRecord 3 (ascii "abc")).info ∧
        ((∃ q ∈ abRecords,
            properPrefix q.Path (mkRecord 3 (ascii "abc")).Path = true) →
          ∃ p ∈ abRecords,
            properPrefix p.Path (mkRecord 3 (ascii "abc")).Path = true ∧
            (∀ q ∈ abRecords,
              properPrefix q.Path (mkRecord 3 (ascii "abc")).Path = true →
                q.Path.length ≤ p.Path.length) ∧
            e.parent = some p.info ∧
            e.suffix = (mkRecord 3 (ascii "abc")).Path.drop p.Path.length) ∧
        ((∀ q ∈ abRecords,
            properPrefix q.Path (mkRecord 3 (ascii "abc")).Path = false) →
          e.parent = none ∧ e.suffix = (mkRecord 3 (ascii "abc")).Path) :=
  ⟨by decide, by decide,
    ClasspathNodeAllChildren_nearest_ancestor abRecords (by decide)
      (mkRecord 3 (ascii "abc")) (by decide)⟩

/-- Claim C3. For records with pairwise distinct paths, sorted ascending by path, the
flattening of the forest built by `ClasspathNodeAllChildren` is the list of the input paths:
every input path is the full path of exactly one node, and every node's full path is an
input path. -/
theorem flatten_ClasspathNodeAllChildren_roundtrip (cps : List Classpath)
    (_hsorted : AscendingByPath cps) (hdistinct : (cps.map (fun c => c.Path)).Nodup) :
    flatten (ClasspathNodeAllChildren cps) = cps.map (fun c => c.Path) ∧
      (∀ r ∈ cps, (flatten (ClasspathNodeAllChildren cps)).countP (fun p => decide (p = r.Path)) = 1) ∧
      (∀ p ∈ flatten (ClasspathNodeAllChildren cps), ∃ r ∈ cps, r.Path = p) := by
  have hflat : flatten (ClasspathNodeAllChildren cps) = cps.map (fun c => c.Path) := by
    have h := congrArg (List.map (fun n : NodeInfo => n.Path)) (walk_build_self cps)
    simp only [List.map_map] at h
    exact h
  refine ⟨hflat, ?_, ?_⟩
  · intro r hr
    rw [hflat]
    exact List.count_eq_one_of_mem hdistinct (List.mem_map_of_mem _ hr)
  · intro p hp
    rw [hflat] at hp
    exact List.mem_map.1 hp

theorem flatten_ClasspathNodeAllChildren_roundtrip_witness :
    AscendingByPath abRecords ∧ (abRecords.map (fun c => c.Path)).Nodup ∧
      (flatten (ClasspathNodeAllChildren abRecords) = abRecords.map (fun c => c.Path) ∧
        (∀ r ∈ abRecords, (flatten (ClasspathNodeAllChildren abRecords)).countP (fun p => decide (p = r.Path)) = 1) ∧
        (∀ p ∈ flatten (ClasspathNodeAllChildren abRecords), ∃ r ∈ abRecords, r.Path = p)) :=
  ⟨by decide, by decide,
    flatten_ClasspathNodeAllChildren_roundtrip abRecords (by decide) (by decide)⟩

/-- Claim C4. Inserting the records `infra`, `infraweb`, `infraweb-api`, `infradb` in the
order listed gives one root with suffix `infra` whose two children are `web`, with the single
leaf child `-api`, and the leaf `db`; inserting them in byte-wise ascending order gives the
same root and the same two children, `db` first. -/
theorem ClasspathNodeAllChildren_infra :
    ClasspathNodeAllChildren infraRecords =
        [.mk 1 (ascii "infra") [] 0
          [.mk 2 (ascii "web") [] 0 [.mk 3 (ascii "-api") [] 0 []],
            .mk 4 (ascii "db") [] 0 []]] ∧
      ClasspathNodeAllChildren infraRecordsSorted =
        [.mk 1 (ascii "infra") [] 0
          [.mk 4 (ascii "db") [] 0 [],
            .mk 2 (ascii "web") [] 0 [.mk 3 (ascii "-api") [] 0 []]]] :=
  ⟨rfl, rfl⟩

theorem pick_mem (target : GoString) : ∀ (spine : List NodeInfo) (par : Option NodeInfo),
    pick par target spine = par ∨ ∃ p ∈ spine, pick par target spine = some p
  | [], _ => Or.inl rfl
  | n :: rest, par => by
    by_cases h : HasPrefix target n.Path = true
    · simp only [pick, h, if_true]
      rcases pick_mem target rest (some n) with h1 | ⟨p, hp, h1⟩
      · exact Or.inr ⟨n, by simp, h1⟩
      · exact Or.inr ⟨p, by simp [hp], h1⟩
    · simp [pick, h]

theorem pick_fullOf_le (target : GoString) :
    ∀ (spine : List NodeInfo) (par : Option NodeInfo), fullOf par <+: target →
      fullOf (pick par target spine) <+: target
  | [], _, h => h
  | n :: rest, par, h => by
    by_cases hn : HasPrefix target n.Path = true
    · simp only [pick, hn, if_true]
      exact pick_fullOf_le target rest (some n) ((HasPrefix_iff _ _).1 hn)
    · simpa [pick, hn] using h

/-- Claim C10. Whatever the input list, the pre-order traversal of the forest built by
`ClasspathNodeAllChildren`, with full paths rebuilt from the suffixes, is the input list of
(id, path, note, preset) in input order. One `ListInsert` leaves the traversal of the
existing nodes as it was, parents and suffixes included, and adds one entry at its end: a
leaf carrying the record, attached to the root or to a node of the rightmost spine, which
becomes the last node of the rightmost spine. -/
theorem ListInsert_appends_leaf :
    (∀ cps : List Classpath,
      (walkForest none (ClasspathNodeAllChildren cps)).map (fun e => e.self) =
        cps.map Classpath.info) ∧
    (∀ (obj : Classpath) (node : ClasspathNode),
      ∃ e : Entry,
        walkForest none (ListInsert obj node).Children =
          walkForest none node.Children ++ [e] ∧
        e.self = obj.info ∧
        fullOf e.parent ++ e.suffix = obj.Path ∧
        (e.parent = none ∨ ∃ p ∈ spineForest none node.Children, e.parent = some p) ∧
        (spineForest none (ListInsert obj node).Children).getLast? = some obj.info) := by
  refine ⟨walk_build_self, ?_⟩
  intro obj node
  refine ⟨newEntry obj none obj.Path (spineForest none node.Children), ?_, rfl, ?_, ?_, ?_⟩
  · rw [ListInsert_Children, walkForest_loop]; rfl
  · exact append_drop_of_HasPrefix _ _
      ((HasPrefix_iff _ _).2 (pick_fullOf_le obj.Path _ none List.nil_prefix))
  · exact pick_mem obj.Path _ none
  · rw [ListInsert_Children, spineForest_loop]
    simp [fullOf, Classpath.info]

/-! ## Claims about the service operations -/

/-- Claim C5. When the two count queries of `Del` answer with counts and one of the counts
is not zero, `Del` returns the error for the dependency that blocks it and the only calls it
has issued are count queries: no session is created or begun, no `DELETE` is executed,
nothing is committed. -/
theorem Del_refuses_when_referenced (db : Store) (c : Classpath) (nr nc : Int)
    (hres : db.ClasspathResourceCount "classpath_id=?" [.int c.Id] = (nr, none))
    (hrule : db.CollectRuleCount "classpath_id=?" [.int c.Id] = (nc, none))
    (hnr : 0 ≤ nr) (hnc : 0 ≤ nc) (h : nr ≠ 0 ∨ nc ≠ 0) :
    ((Classpath.Del db c).1 = some (.e "There are still resources under the classpath" []) ∨
      (Classpath.Del db c).1 =
        some (.e "There are still collect rules under the classpath" [])) ∧
    (∀ call ∈ (Classpath.Del db c).2,
      call = .resourceCount "classpath_id=?" [.int c.Id] ∨
        call = .collectRuleCount "classpath_id=?" [.int c.Id]) ∧
    Call.newSession ∉ (Classpath.Del db c).2 ∧
    Call.begin ∉ (Classpath.Del db c).2 ∧
    (∀ sql args, Call.exec sql args ∉ (Classpath.Del db c).2) ∧
    Call.commit ∉ (Classpath.Del db c).2 := by
  by_cases h1 : nr > 0
  · simp [Classpath.Del, hres, h1]
  · have hnc0 : nc > 0 := by omega
    simp [Classpath.Del, hres, hrule, h1, hnc0]

theorem Del_refuses_when_referenced_witness :
    (fixedStore [] 2).ClasspathResourceCount "classpath_id=?" [.int (mkRecord 5 (ascii "a")).Id] =
        (2, none) ∧
      (fixedStore [] 2).CollectRuleCount "classpath_id=?" [.int (mkRecord 5 (ascii "a")).Id] =
        (2, none) ∧
      (0 : Int) ≤ 2 ∧ ((2 : Int) ≠ 0 ∨ (2 : Int) ≠ 0) ∧
      (((Classpath.Del (fixedStore [] 2) (mkRecord 5 (ascii "a"))).1 =
          some (.e "There are still resources under the classpath" []) ∨
        (Classpath.Del (fixedStore [] 2) (mkRecord 5 (ascii "a"))).1 =
          some (.e "There are still collect rules under the classpath" [])) ∧
      (∀ call ∈ (Classpath.Del (fixedStore [] 2) (mkRecord 5 (ascii "a"))).2,
        call = .resourceCount "classpath_id=?" [.int (mkRecord 5 (ascii "a")).Id] ∨
          call = .collectRuleCount "classpath_id=?" [.int (mkRecord 5 (ascii "a")).Id]) ∧
      Call.newSession ∉ (Classpath.Del (fixedStore [] 2) (mkRecord 5 (ascii "a"))).2 ∧
      Call.begin ∉ (Classpath.Del (fixedStore [] 2) (mkRecord 5 (ascii "a"))).2 ∧
      (∀ sql args,
        Call.exec sql args ∉ (Classpath.Del (fixedStore [] 2) (mkRecord 5 (ascii "a"))).2) ∧
      Call.commit ∉ (Classpath.Del (fixedStore [] 2) (mkRecord 5 (ascii "a"))).2) :=
  ⟨rfl, rfl, by decide, Or.inl (by decide),
    Del_refuses_when_referenced (fixedStore [] 2) (mkRecord 5 (ascii "a")) 2 2 rfl rfl
      (by decide) (by decide) (Or.inl (by decide))⟩

/-- Claim C6. For a record that passes validation, when the count query for its path
answers with the count `num`: if `num` is greater than 0, `Add` returns the error saying the
classpath already exists, leaves the record as it was and has issued the count query only;
and `Add` issues an insert exactly when `num` is 0. -/
theorem Add_rejects_duplicate (lib : Lib) (db : Store) (c : Classpath) (num : Int)
    (hvalid : Classpath.Validate lib c = none)
    (hcount : db.Count (ClasspathCount.session "path=?" [.str c.Path]) = (num, none))
    (hnum : 0 ≤ num) :
    (num > 0 →
      Classpath.Add lib db c =
        (some (.e "Classpath %s already exists" [c.Path]), c,
          [.count (ClasspathCount.session "path=?" [.str c.Path])])) ∧
    ((∃ row, Call.insertOne row ∈ (Classpath.Add lib db c).2.2) ↔ num = 0) := by
  by_cases h : num > 0
  · have h0 : num ≠ 0 := by omega
    simp [Classpath.Add, hvalid, ClasspathCount, hcount, h, h0]
  · have h0 : num = 0 := by omega
    simp [Classpath.Add, hvalid, ClasspathCount, hcount, h0]

theorem Add_rejects_duplicate_witness :
    Classpath.Validate plainLib (mkRecord 0 (ascii "team")) = none ∧
      (fixedStore [] 1).Count
          (ClasspathCount.session "path=?" [.str (mkRecord 0 (ascii "team")).Path]) =
        (1, none) ∧
      (0 : Int) ≤ 1 ∧
      (((1 : Int) > 0 →
        Classpath.Add plainLib (fixedStore [] 1) (mkRecord 0 (ascii "team")) =
          (some (.e "Classpath %s already exists" [(mkRecord 0 (ascii "team")).Path]),
            mkRecord 0 (ascii "team"),
            [.count (ClasspathCount.session "path=?"
              [.str (mkRecord 0 (ascii "team")).Path])])) ∧
      ((∃ row, Call.insertOne row ∈
          (Classpath.Add plainLib (fixedStore [] 1) (mkRecord 0 (ascii "team"))).2.2) ↔
        (1 : Int) = 0)) :=
  ⟨by decide, rfl, by decide,
    Add_rejects_duplicate plainLib (fixedStore [] 1) (mkRecord 0 (ascii "team")) 1
      (by decide) rfl (by decide)⟩

/-- Claim C7. For a record whose path contains a space (byte 32), `Validate` returns the
error for invalid characters in the path, and `Add` returns that error with the record
unchanged (timestamps not set) and without having issued any call to the store. -/
theorem Add_rejects_space (lib : Lib) (db : Store) (c : Classpath) (hspace : 32 ∈ c.Path) :
    Classpath.Validate lib c = some (.e "Classpath path has invalid characters" []) ∧
      Classpath.Add lib db c =
        (some (.e "Classpath path has invalid characters" []), c, []) := by
  have hc : Contains c.Path (ascii " ") = true := (Contains_singleton 32 c.Path).2 hspace
  have hv : Classpath.Validate lib c = some (.e "Classpath path has invalid characters" []) := by
    unfold Classpath.Validate
    rw [hc]
    split <;> simp
  exact ⟨hv, by simp [Classpath.Add, hv]⟩

theorem Add_rejects_space_witness :
    32 ∈ (mkRecord 0 (ascii "team a")).Path ∧
      (Classpath.Validate plainLib (mkRecord 0 (ascii "team a")) =
          some (.e "Classpath path has invalid characters" []) ∧
        Classpath.Add plainLib (fixedStore [] 0) (mkRecord 0 (ascii "team a")) =
          (some (.e "Classpath path has invalid characters" []),
            mkRecord 0 (ascii "team a"), [])) :=
  ⟨by decide, Add_rejects_space plainLib (fixedStore [] 0) (mkRecord 0 (ascii "team a"))
    (by decide)⟩

theorem AddResources_loop_spec {σ : Type} (attach : Int → GoString → σ → Option Error × σ)
    (lib : Lib) (id : Int) : ∀ (idents : List GoString) (s : σ),
      ((Classpath.AddResources.loop attach lib id idents s).2.2.map (fun x => (x.id, x.ident)) <+:
        idents.map (fun i => (id, lib.TrimSpace i))) ∧
      Replays attach s (Classpath.AddResources.loop attach lib id idents s).2.2
        (Classpath.AddResources.loop attach lib id idents s).2.1 ∧
      (∀ x ∈ (Classpath.AddResources.loop attach lib id idents s).2.2.dropLast, x.result = none) ∧
      (Classpath.AddResources.loop attach lib id idents s).1 =
        (Classpath.AddResources.loop attach lib id idents s).2.2.getLast?.bind (fun x => x.result) ∧
      ((Classpath.AddResources.loop attach lib id idents s).1 = none ↔
        ((Classpath.AddResources.loop attach lib id idents s).2.2.map (fun x => (x.id, x.ident)) =
            idents.map (fun i => (id, lib.TrimSpace i)) ∧
          ∀ x ∈ (Classpath.AddResources.loop attach lib id idents s).2.2, x.result = none))
  | [], s => by simp [Classpath.AddResources.loop, Replays]
  | ident :: rest, s => by
    have ih := AddResources_loop_spec attach lib id rest (attach id (lib.TrimSpace ident) s).2
    cases hres : attach id (lib.TrimSpace ident) s with
    | mk r s1 =>
      rw [hres] at ih
      cases r with
      | some err =>
        simp [Classpath.AddResources.loop, hres, Replays, List.prefix_cons_inj]
      | none =>
        obtain ⟨h1, h2, h3, h4, h5⟩ := ih
        simp only [Classpath.AddResources.loop, hres]
        refine ⟨?_, ?_, ?_, ?_, ?_⟩
        · simpa [List.prefix_cons_inj] using h1
        · simpa [Replays, hres] using h2
        · intro x hx
          cases hc : (Classpath.AddResources.loop attach lib id rest s1).2.2 with
          | nil => simp [hc] at hx
          | cons y ys =>
            rw [hc] at hx h3
            rw [List.dropLast_cons₂, List.mem_cons] at hx
            rcases hx with rfl | hx
            · rfl
            · exact h3 x hx
        · rw [h4]
          cases hc : (Classpath.AddResources.loop attach lib id rest s1).2.2 with
          | nil => simp
          | cons y ys => simp [List.getLast?_cons_cons]
        · rw [h5]
          simp

/-- Claim C8. Whatever the collaborator does, the calls `AddResources` makes are calls on
the trimmed identifiers, in list order, from the first identifier on, each recorded with the
collaborator's real answer; every call but the last succeeded; the error returned is the
answer of the last call (none when no call was made), so the loop stops at the first failing
identifier and calls nothing after it; and no error is returned exactly when every
identifier was passed to the collaborator and every call succeeded. -/
theorem AddResources_fails_fast {σ : Type}
    (attach : Int → GoString → σ → Option Error × σ) (lib : Lib) (c : Classpath)
    (idents : List GoString) (s : σ) :
    ((Classpath.AddResources attach lib c idents s).2.2.map (fun x => (x.id, x.ident)) <+:
      idents.map (fun i => (c.Id, lib.TrimSpace i))) ∧
    Replays attach s (Classpath.AddResources attach lib c idents s).2.2
      (Classpath.AddResources attach lib c idents s).2.1 ∧
    (∀ x ∈ (Classpath.AddResources attach lib c idents s).2.2.dropLast, x.result = none) ∧
    (Classpath.AddResources attach lib c idents s).1 =
      (Classpath.AddResources attach lib c idents s).2.2.getLast?.bind (fun x => x.result) ∧
    ((Classpath.AddResources attach lib c idents s).1 = none ↔
      ((Classpath.AddResources attach lib c idents s).2.2.map (fun x => (x.id, x.ident)) =
          idents.map (fun i => (c.Id, lib.TrimSpace i)) ∧
        ∀ x ∈ (Classpath.AddResources attach lib c idents s).2.2, x.result = none)) :=
  AddResources_loop_spec attach lib c.Id idents s

/-- On the identifiers `x`, `bad`, `y` with a collaborator that fails on `bad`, the first two
are attached, the error of the second is returned and `y` is never passed on. -/
theorem AddResources_stops_at_bad :
    Classpath.AddResources failingAttach plainLib (mkRecord 9 (ascii "a"))
        [ascii "x", ascii "bad", ascii "y"] 0 =
      (some (.foreign 7), 2,
        [⟨9, ascii "x", none⟩, ⟨9, ascii "bad", some (.foreign 7)⟩]) := by
  decide

/-- Claim C9. When the store finds no record and reports no error, `ClasspathGets`,
`ClasspathNodeGets` and `DirectChildren` each return an allocated empty slice and no error;
`DirectChildren` returns an allocated empty slice whenever the prefix query found fewer than
two records, whether or not the query failed. -/
theorem empty_results (db : Store) (query : GoString) (limit offset : Int) (cp : Classpath) :
    (db.Find (ClasspathGets.session query limit offset) = ([], none) →
      ClasspathGets db query limit offset = (.lit [], none)) ∧
    (db.Find (ClasspathNodeGets.session query) = ([], none) →
      ClasspathNodeGets db query = (.lit [], none)) ∧
    (db.Find (ClasspathGetsByPrefix.session cp.Path) = ([], none) →
      Classpath.DirectChildren db cp = .ok (.lit [], none)) ∧
    ((db.Find (ClasspathGetsByPrefix.session cp.Path)).1.length < 2 →
      ∃ err, Classpath.DirectChildren db cp = .ok (.lit [], err)) := by
  refine ⟨?_, ?_, ?_, ?_⟩
  · intro h
    simp [ClasspathGets, h, Slice.appended, Slice.len, Slice.toList]
  · intro h
    simp [ClasspathNodeGets, h, Slice.appended, Slice.len, Slice.toList]
  · intro h
    simp [Classpath.DirectChildren, ClasspathGetsByPrefix, h, Slice.appended, Slice.len,
      Slice.toList]
  · intro h
    rcases hf : db.Find (ClasspathGetsByPrefix.session cp.Path) with ⟨rows, err⟩
    rw [hf] at h
    cases err with
    | some e =>
      exact ⟨some .internalServerError,
        by simp [Classpath.DirectChildren, ClasspathGetsByPrefix, hf]⟩
    | none =>
      refine ⟨none, ?_⟩
      match rows, h with
      | [], _ =>
        simp [Classpath.DirectChildren, ClasspathGetsByPrefix, hf, Slice.appended, Slice.len,
          Slice.toList]
      | [r], _ =>
        simp [Classpath.DirectChildren, ClasspathGetsByPrefix, hf, Slice.appended, Slice.len,
          Slice.toList]

theorem empty_results_witness :
    ClasspathGets (fixedStore [] 0) (ascii "web") 10 0 = (.lit [], none) ∧
      ClasspathNodeGets (fixedStore [] 0) (ascii "web") = (.lit [], none) ∧
      Classpath.DirectChildren (fixedStore [] 0) (mkRecord 1 (ascii "a")) = .ok (.lit [], none) ∧
      ∃ err, Classpath.DirectChildren (fixedStore [mkRecord 1 (ascii "a")] 0)
        (mkRecord 1 (ascii "a")) = .ok (.lit [], err) :=
  ⟨(empty_results (fixedStore [] 0) (ascii "web") 10 0 (mkRecord 1 (ascii "a"))).1 rfl,
    (empty_results (fixedStore [] 0) (ascii "web") 10 0 (mkRecord 1 (ascii "a"))).2.1 rfl,
    (empty_results (fixedStore [] 0) (ascii "web") 10 0 (mkRecord 1 (ascii "a"))).2.2.1 rfl,
    (empty_results (fixedStore [mkRecord 1 (ascii "a")] 0) (ascii "web") 10 0
      (mkRecord 1 (ascii "a"))).2.2.2 (by decide)⟩

/-- Claim C2 (what the code does). On the records `a`, `ab`, `abc`, `ax` queried from `a`,
`DirectChildren` returns three entries, not two: suffixes `b`, `bc`, `x`, the second carrying
the id of `ab` and the third the id of `abc`. -/
theorem DirectChildren_ab :
    Classpath.DirectChildren (fixedStore abRecords 0) (mkRecord 1 (ascii "a")) =
      .ok (.lit [mkRecord 2 (ascii "b"), mkRecord 2 (ascii "bc"), mkRecord 3 (ascii "x")],
        none) := by
  rfl
